import Mathlib

/-!
Verification development for the `slab_junctions` layout generator.

The drawing engine (`phidl_bridge.py`) and the junction / dose-grid
generators (`dose_chip/dose_chip_generator.py`,
`junction_experiments/examples/asymmetric_junction.py`) are shallowly
embedded below.  Conventions:

* Coordinates, lengths and doses are rationals (`ℚ`); the Python code uses
  IEEE doubles, and every property proved here is the exact-arithmetic
  content of the corresponding floating-point statement.
* A heading is kept in degrees, exactly as `StateTracker.last_direction`.
  Where the code computes `np.cos(np.radians(d))` / `np.sin(np.radians(d))`
  the embedding takes the resulting pair explicitly: either as two rational
  parameters `c s` (for `TwoLayerManager` methods) or as a function
  `trig : ℚ → ℚ × ℚ` mapping a heading in degrees to its (cosine, sine)
  pair (for the `Structure`-level wrappers).  `trig 0 = (1, 0)` holds for
  the real functions, and theorems about degree-0 drawing assume exactly
  that.
* Geometry is a list of layer-tagged closed polygon point loops, in
  emission order — the order in which `Device.add_polygon` is called.
-/

/-- A point in the plane, micrometer coordinates as exact rationals. -/
structure Pt where
  x : ℚ
  y : ℚ
deriving DecidableEq, Repr

/-- A closed polygon: its ordered list of vertices. -/
abbrev PolyLoop := List Pt

/-- A polygon tagged with the GDS layer it was emitted on. -/
structure LayeredPoly where
  layer : Int
  poly : PolyLoop
deriving DecidableEq, Repr

/-- `StateTracker` state: current position `last` and heading
`last_direction` in degrees. -/
structure PathState where
  pos : Pt
  dir : ℚ
deriving DecidableEq, Repr

/-- Embeds `TwoLayerManager.add_cpw_straight` (phidl_bridge.py lines
125-233).  `c` and `s` stand for `np.cos(theta)` / `np.sin(theta)` where
`theta = np.radians(direction)`; the perpendicular direction is
`(dx_perp, dy_perp) = (-s, c)` as in the source.  Returns the updated
state (both `pin_state.last` and `gap_state.last` are set to `end_pos`;
the heading is untouched) together with the polygons added to the device,
in emission order. -/
def add_cpw_straight (twoLayer : Bool) (c s : ℚ) (length pinw gapw : ℚ)
    (layer_pin layer_gap : Int) (st : PathState) : PathState × List LayeredPoly :=
  let position := st.pos
  let endPos : Pt := ⟨position.x + length * c, position.y + length * s⟩
  let dxp := -s
  let dyp := c
  let polys : List LayeredPoly :=
    if twoLayer then
      let pinPolys : List LayeredPoly :=
        if pinw > 0 then
          [⟨layer_pin,
            [⟨position.x - pinw/2 * dxp, position.y - pinw/2 * dyp⟩,
             ⟨position.x + pinw/2 * dxp, position.y + pinw/2 * dyp⟩,
             ⟨endPos.x + pinw/2 * dxp, endPos.y + pinw/2 * dyp⟩,
             ⟨endPos.x - pinw/2 * dxp, endPos.y - pinw/2 * dyp⟩]⟩]
        else []
      let gap_width := pinw + 2 * gapw
      pinPolys ++
        [⟨layer_gap,
          [⟨position.x - gap_width/2 * dxp, position.y - gap_width/2 * dyp⟩,
           ⟨position.x + gap_width/2 * dxp, position.y + gap_width/2 * dyp⟩,
           ⟨endPos.x + gap_width/2 * dxp, endPos.y + gap_width/2 * dyp⟩,
           ⟨endPos.x - gap_width/2 * dxp, endPos.y - gap_width/2 * dyp⟩]⟩]
    else
      if gapw > 0 then
        if pinw = 0 then
          let total_width := 2 * gapw
          [⟨layer_pin,
            [⟨position.x - total_width/2 * dxp, position.y - total_width/2 * dyp⟩,
             ⟨position.x + total_width/2 * dxp, position.y + total_width/2 * dyp⟩,
             ⟨endPos.x + total_width/2 * dxp, endPos.y + total_width/2 * dyp⟩,
             ⟨endPos.x - total_width/2 * dxp, endPos.y - total_width/2 * dyp⟩]⟩]
        else
          let left_center_offset := pinw/2 + gapw/2
          let right_center_offset := pinw/2 + gapw/2
          [⟨layer_pin,
            [⟨position.x - (left_center_offset + gapw/2) * dxp,
              position.y - (left_center_offset + gapw/2) * dyp⟩,
             ⟨position.x - (left_center_offset - gapw/2) * dxp,
              position.y - (left_center_offset - gapw/2) * dyp⟩,
             ⟨endPos.x - (left_center_offset - gapw/2) * dxp,
              endPos.y - (left_center_offset - gapw/2) * dyp⟩,
             ⟨endPos.x - (left_center_offset + gapw/2) * dxp,
              endPos.y - (left_center_offset + gapw/2) * dyp⟩]⟩,
           ⟨layer_pin,
            [⟨position.x + (right_center_offset - gapw/2) * dxp,
              position.y + (right_center_offset - gapw/2) * dyp⟩,
             ⟨position.x + (right_center_offset + gapw/2) * dxp,
              position.y + (right_center_offset + gapw/2) * dyp⟩,
             ⟨endPos.x + (right_center_offset + gapw/2) * dxp,
              endPos.y + (right_center_offset + gapw/2) * dyp⟩,
             ⟨endPos.x + (right_center_offset - gapw/2) * dxp,
              endPos.y + (right_center_offset - gapw/2) * dyp⟩]⟩]
      else []
  (⟨endPos, st.dir⟩, polys)

/-- Embeds the `transform_point` helper inside
`TwoLayerManager.add_cpw_taper` (phidl_bridge.py lines 269-274): rotate a
local point by the heading (given as its cosine/sine pair) and translate
to the current position. -/
def transform_point (position : Pt) (c s : ℚ) (xl yl : ℚ) : Pt :=
  ⟨position.x + (xl * c - yl * s), position.y + (xl * s + yl * c)⟩

/-- Embeds `TwoLayerManager.add_cpw_taper` (phidl_bridge.py lines
235-350), with `c`/`s` the cosine/sine of the heading as in
`add_cpw_straight`. -/
def add_cpw_taper (twoLayer : Bool) (c s : ℚ)
    (length start_pinw stop_pinw start_gapw stop_gapw : ℚ)
    (layer_pin layer_gap : Int) (st : PathState) : PathState × List LayeredPoly :=
  let position := st.pos
  let endPos : Pt := ⟨position.x + length * c, position.y + length * s⟩
  let tp := transform_point position c s
  let polys : List LayeredPoly :=
    if twoLayer then
      let pinPolys : List LayeredPoly :=
        if start_pinw > 0 ∨ stop_pinw > 0 then
          [⟨layer_pin,
            [tp 0 (-(start_pinw/2)), tp length (-(stop_pinw/2)),
             tp length (stop_pinw/2), tp 0 (start_pinw/2)]⟩]
        else []
      let start_gap_width := start_pinw + 2 * start_gapw
      let stop_gap_width := stop_pinw + 2 * stop_gapw
      pinPolys ++
        [⟨layer_gap,
          [tp 0 (-(start_gap_width/2)), tp length (-(stop_gap_width/2)),
           tp length (stop_gap_width/2), tp 0 (start_gap_width/2)]⟩]
    else
      if start_gapw > 0 ∨ stop_gapw > 0 then
        if start_pinw = 0 ∧ stop_pinw = 0 then
          let start_total := 2 * start_gapw
          let stop_total := 2 * stop_gapw
          [⟨layer_pin,
            [tp 0 (-(start_total/2)), tp length (-(stop_total/2)),
             tp length (stop_total/2), tp 0 (start_total/2)]⟩]
        else
          let start_left_offset := start_pinw/2 + start_gapw/2
          let stop_left_offset := stop_pinw/2 + stop_gapw/2
          [⟨layer_pin,
            [tp 0 (-(start_left_offset + start_gapw/2)),
             tp 0 (-(start_left_offset - start_gapw/2)),
             tp length (-(stop_left_offset - stop_gapw/2)),
             tp length (-(stop_left_offset + stop_gapw/2))]⟩,
           ⟨layer_pin,
            [tp 0 (start_left_offset - start_gapw/2),
             tp 0 (start_left_offset + start_gapw/2),
             tp length (stop_left_offset + stop_gapw/2),
             tp length (stop_left_offset - stop_gapw/2)]⟩]
      else
        if start_pinw > 0 ∨ stop_pinw > 0 then
          [⟨layer_pin,
            [tp 0 (-(start_pinw/2)), tp length (-(stop_pinw/2)),
             tp length (stop_pinw/2), tp 0 (start_pinw/2)]⟩]
        else []
  (⟨endPos, st.dir⟩, polys)

/-- Embeds `CPWStraight` applied to a `Structure` of a single-layer
(optical) chip (phidl_bridge.py lines 557-598): in optical mode the draw
lands on the currently active conductor layer, and the structure state is
advanced.  `trig` maps a heading in degrees to its (cosine, sine) pair. -/
def CPWStraightOpt (trig : ℚ → ℚ × ℚ) (layer : Int) (st : PathState)
    (length pinw gapw : ℚ) : PathState × List LayeredPoly :=
  add_cpw_straight false (trig st.dir).1 (trig st.dir).2 length pinw gapw layer layer st

/-- Embeds `CPWLinearTaper` applied to a `Structure` of a single-layer
(optical) chip (phidl_bridge.py lines 601-644). -/
def CPWLinearTaperOpt (trig : ℚ → ℚ × ℚ) (layer : Int) (st : PathState)
    (length start_pinw stop_pinw start_gapw stop_gapw : ℚ) :
    PathState × List LayeredPoly :=
  add_cpw_taper false (trig st.dir).1 (trig st.dir).2 length
    start_pinw stop_pinw start_gapw stop_gapw layer layer st

/-- Embeds the manual position jump `s.last = (s.last[0] + gap, s.last[1])`
used by the Dolan junction generators to skip the junction gap without
drawing. -/
def structure_jump (gap : ℚ) (st : PathState) : PathState :=
  ⟨⟨st.pos.x + gap, st.pos.y⟩, st.dir⟩

/-- All vertices appearing in a device's polygon list. -/
def allPts (polys : List LayeredPoly) : List Pt :=
  polys.foldr (fun lp acc => lp.poly ++ acc) []

/-- Fold a running minimum of x-coordinates over a point list. -/
def foldMinX (l : List Pt) (a : ℚ) : ℚ :=
  l.foldl (fun m p => min m p.x) a

/-- Fold a running maximum of x-coordinates over a point list. -/
def foldMaxX (l : List Pt) (a : ℚ) : ℚ :=
  l.foldl (fun m p => max m p.x) a

/-- Fold a running minimum of y-coordinates over a point list. -/
def foldMinY (l : List Pt) (a : ℚ) : ℚ :=
  l.foldl (fun m p => min m p.y) a

/-- Fold a running maximum of y-coordinates over a point list. -/
def foldMaxY (l : List Pt) (a : ℚ) : ℚ :=
  l.foldl (fun m p => max m p.y) a

/-- Bounding-box center of a device's geometry (`Device.center` in phidl).
For an empty device the center is taken as the origin. -/
def bboxCenter (polys : List LayeredPoly) : Pt :=
  match allPts polys with
  | [] => ⟨0, 0⟩
  | q :: qs =>
      ⟨(foldMinX qs q.x + foldMaxX qs q.x) / 2,
       (foldMinY qs q.y + foldMaxY qs q.y) / 2⟩

/-- Translate every vertex of a device by `(dx, dy)`. -/
def translatePolys (dx dy : ℚ) (polys : List LayeredPoly) : List LayeredPoly :=
  polys.map (fun lp => ⟨lp.layer, lp.poly.map (fun p => ⟨p.x + dx, p.y + dy⟩)⟩)

/-- Embeds `dev.move(origin=dev.center, destination=(0, 0))`: translate the
device so its bounding-box center lands at the origin. -/
def recenter (polys : List LayeredPoly) : List LayeredPoly :=
  translatePolys (-(bboxCenter polys).x) (-(bboxCenter polys).y) polys

/-- Bar width constant `bar_w = 5.0` shared by the Dolan-style junction
generators. -/
def bar_w : ℚ := 5

/-- Taper length constant `taper_l = 2.0`. -/
def taper_l : ℚ := 2

/-- Thin-section length constant `thin_l = 0.8`. -/
def thin_l : ℚ := 0.8

/-- Conductor ("PIN"/fullcut) pass shared verbatim by `draw_dolan_junction`
(dose_chip_generator.py lines 164-172) and `draw_asymmetric_junction`
(asymmetric_junction.py lines 56-73), and by
`draw_dolan_junction_variable_uc` (lines 63-71) after its `right_width`
clamp: bar, taper down to `lw`, thin section, gap skip, thin section of
width `rw`, taper up, bar.  All drawing is at heading 0 starting from the
origin; the polygons are returned in emission order. -/
def dolan_pin_pass (trig : ℚ → ℚ × ℚ) (lw rw gap : ℚ) (layer : Int) :
    List LayeredPoly :=
  let st0 : PathState := ⟨⟨0, 0⟩, 0⟩
  let r1 := CPWStraightOpt trig layer st0 1 0 (bar_w/2)
  let r2 := CPWLinearTaperOpt trig layer r1.1 taper_l bar_w lw 0 0
  let r3 := CPWStraightOpt trig layer r2.1 thin_l 0 (lw/2)
  let st4 := structure_jump gap r3.1
  let r5 := CPWStraightOpt trig layer st4 thin_l 0 (rw/2)
  let r6 := CPWLinearTaperOpt trig layer r5.1 taper_l rw bar_w 0 0
  let r7 := CPWStraightOpt trig layer r6.1 1 0 (bar_w/2)
  r1.2 ++ r2.2 ++ r3.2 ++ r5.2 ++ r6.2 ++ r7.2

/-- Undercut ("GAP") pass shared verbatim by `draw_dolan_junction`
(dose_chip_generator.py lines 180-214), `draw_dolan_junction_variable_uc`
(lines 79-112) and `draw_asymmetric_junction` (asymmetric_junction.py
lines 77-109): edge border, bar borders, taper borders, thin borders, a
solid gap fill of width `max lw rw + uc`, thin borders, taper borders,
bar borders, edge border.  In the source the global conductor layer is
temporarily overridden to the undercut layer, so every polygon here lands
on `layer` (the undercut layer). -/
def dolan_gap_pass (trig : ℚ → ℚ × ℚ) (lw rw gap uc : ℚ) (layer : Int) :
    List LayeredPoly :=
  let st0 : PathState := ⟨⟨0, 0⟩, 0⟩
  let r1 := CPWStraightOpt trig layer st0 uc 0 ((bar_w + uc)/2)
  let r2 := CPWStraightOpt trig layer r1.1 1 bar_w (uc/2)
  let r3 := CPWLinearTaperOpt trig layer r2.1 taper_l bar_w lw (uc/2) (uc/2)
  let r4 := CPWStraightOpt trig layer r3.1 thin_l lw (uc/2)
  let max_width := max lw rw
  let r5 := CPWStraightOpt trig layer r4.1 gap 0 ((max_width + uc)/2)
  let r6 := CPWStraightOpt trig layer r5.1 thin_l rw (uc/2)
  let r7 := CPWLinearTaperOpt trig layer r6.1 taper_l rw bar_w (uc/2) (uc/2)
  let r8 := CPWStraightOpt trig layer r7.1 1 bar_w (uc/2)
  let r9 := CPWStraightOpt trig layer r8.1 uc 0 ((bar_w + uc)/2)
  r1.2 ++ r2.2 ++ r3.2 ++ r4.2 ++ r5.2 ++ r6.2 ++ r7.2 ++ r8.2 ++ r9.2

/-- Embeds `draw_dolan_junction` (dose_chip_generator.py lines 128-227):
fixed undercut border `uc = 0.3`; `right_width` is used exactly as passed
(no clamping) in the conductor pass.  Both devices are recentered before
being returned. -/
def draw_dolan_junction (trig : ℚ → ℚ × ℚ) (width gap : ℚ)
    (layer_pin layer_gap : Int) (right_width : ℚ) :
    List LayeredPoly × List LayeredPoly :=
  (recenter (dolan_pin_pass trig width right_width gap layer_pin),
   recenter (dolan_gap_pass trig width right_width gap 0.3 layer_gap))

/-- Embeds `draw_dolan_junction_variable_uc` (dose_chip_generator.py lines
25-125): same topology, caller-supplied undercut border `uc`, and
`right_width = max(width, right_width)` enforced up front (line 49). -/
def draw_dolan_junction_variable_uc (trig : ℚ → ℚ × ℚ) (width gap : ℚ)
    (layer_pin layer_gap : Int) (uc right_width : ℚ) :
    List LayeredPoly × List LayeredPoly :=
  let rw := max width right_width
  (recenter (dolan_pin_pass trig width rw gap layer_pin),
   recenter (dolan_gap_pass trig width rw gap uc layer_gap))

/-- Embeds `draw_asymmetric_junction` (asymmetric_junction.py lines
21-121): the `width` argument is unused; left and right electrode widths
are independent (no `max` floor on the right side); `uc = 0.3` fixed. -/
def draw_asymmetric_junction (trig : ℚ → ℚ × ℚ) (width gap : ℚ)
    (layer_pin layer_gap : Int) (left_width right_width : ℚ) :
    List LayeredPoly × List LayeredPoly :=
  (recenter (dolan_pin_pass trig left_width right_width gap layer_pin),
   recenter (dolan_gap_pass trig left_width right_width gap 0.3 layer_gap))

/-- Conductor pass of `draw_dolan_junction_array` (dose_chip_generator.py
lines 276-308): bar, taper, thin, gap skip, then `num_juncs - 1` repeats
of a middle electrode of length `gap` followed by a gap skip, then the
closing thin section, taper and bar.  `rw` is the already-clamped right
width. -/
def dolan_array_pin_pass (trig : ℚ → ℚ × ℚ) (lw rw gap : ℚ) (num_juncs : Nat)
    (layer : Int) : List LayeredPoly :=
  let st0 : PathState := ⟨⟨0, 0⟩, 0⟩
  let r1 := CPWStraightOpt trig layer st0 1 0 (bar_w/2)
  let r2 := CPWLinearTaperOpt trig layer r1.1 taper_l bar_w lw 0 0
  let r3 := CPWStraightOpt trig layer r2.1 thin_l 0 (lw/2)
  let st4 := structure_jump gap r3.1
  let mid := (List.range (num_juncs - 1)).foldl
    (fun (acc : PathState × List LayeredPoly) _ =>
      let r := CPWStraightOpt trig layer acc.1 gap 0 (lw/2)
      (structure_jump gap r.1, acc.2 ++ r.2))
    (st4, [])
  let r5 := CPWStraightOpt trig layer mid.1 thin_l 0 (rw/2)
  let r6 := CPWLinearTaperOpt trig layer r5.1 taper_l rw bar_w 0 0
  let r7 := CPWStraightOpt trig layer r6.1 1 0 (bar_w/2)
  r1.2 ++ r2.2 ++ r3.2 ++ mid.2 ++ r5.2 ++ r6.2 ++ r7.2

/-- Undercut pass of `draw_dolan_junction_array` (dose_chip_generator.py
lines 315-356): edge, bar borders, taper borders, first thin borders, then
`num_juncs - 1` repeats of a gap fill (length `gap`) and thin borders
(length `gap`), then the final gap fill, closing thin borders, taper
borders, bar borders and edge. -/
def dolan_array_gap_pass (trig : ℚ → ℚ × ℚ) (lw rw gap uc : ℚ)
    (num_juncs : Nat) (layer : Int) : List LayeredPoly :=
  let st0 : PathState := ⟨⟨0, 0⟩, 0⟩
  let r1 := CPWStraightOpt trig layer st0 uc 0 ((bar_w + uc)/2)
  let r2 := CPWStraightOpt trig layer r1.1 1 bar_w (uc/2)
  let r3 := CPWLinearTaperOpt trig layer r2.1 taper_l bar_w lw (uc/2) (uc/2)
  let r4 := CPWStraightOpt trig layer r3.1 thin_l lw (uc/2)
  let max_width := max lw rw
  let mid := (List.range (num_juncs - 1)).foldl
    (fun (acc : PathState × List LayeredPoly) _ =>
      let ra := CPWStraightOpt trig layer acc.1 gap 0 ((lw + uc)/2)
      let rb := CPWStraightOpt trig layer ra.1 gap lw (uc/2)
      (rb.1, acc.2 ++ ra.2 ++ rb.2))
    (r4.1, [])
  let r5 := CPWStraightOpt trig layer mid.1 gap 0 ((max_width + uc)/2)
  let r6 := CPWStraightOpt trig layer r5.1 thin_l rw (uc/2)
  let r7 := CPWLinearTaperOpt trig layer r6.1 taper_l rw bar_w (uc/2) (uc/2)
  let r8 := CPWStraightOpt trig layer r7.1 1 bar_w (uc/2)
  let r9 := CPWStraightOpt trig layer r8.1 uc 0 ((bar_w + uc)/2)
  r1.2 ++ r2.2 ++ r3.2 ++ r4.2 ++ mid.2 ++ r5.2 ++ r6.2 ++ r7.2 ++ r8.2 ++ r9.2

/-- Embeds `draw_dolan_junction_array` (dose_chip_generator.py lines
230-369): `right_width = max(width, right_width)` is enforced (line 261),
the undercut border is the fixed `uc = 0.3`, and both devices are
recentered before being returned. -/
def draw_dolan_junction_array (trig : ℚ → ℚ × ℚ) (width gap : ℚ)
    (layer_pin layer_gap : Int) (right_width : ℚ) (num_juncs : Nat) :
    List LayeredPoly × List LayeredPoly :=
  let rw := max width right_width
  (recenter (dolan_array_pin_pass trig width rw gap num_juncs layer_pin),
   recenter (dolan_array_gap_pass trig width rw gap 0.3 num_juncs layer_gap))

/-- Embeds `draw_rectangle_cpw` (dose_chip_generator.py lines 372-439):
one solid conductor rectangle of the given width/length/heading on the
conductor chip, plus (with the conductor layer temporarily overridden to
the undercut layer) two end paddles and a side undercut border on the
undercut chip.  Returns (conductor-chip polygons, undercut-chip polygons)
in emission order. -/
def draw_rectangle_cpw (trig : ℚ → ℚ × ℚ) (center_pos : Pt)
    (width length direction paddle_width paddle_length uc : ℚ)
    (layer_pin layer_gap : Int) : List LayeredPoly × List LayeredPoly :=
  let cs := trig direction
  let c := cs.1
  let s := cs.2
  let half_dx := (length / 2) * c
  let half_dy := (length / 2) * s
  let start_pos : Pt := ⟨center_pos.x - half_dx, center_pos.y - half_dy⟩
  let r_main := CPWStraightOpt trig layer_pin ⟨start_pos, direction⟩ length 0 (width/2)
  let paddle_half_dx := (paddle_length / 2) * c
  let paddle_half_dy := (paddle_length / 2) * s
  let left_center : Pt := ⟨center_pos.x - half_dx, center_pos.y - half_dy⟩
  let left_start : Pt := ⟨left_center.x - paddle_half_dx, left_center.y - paddle_half_dy⟩
  let r_left := CPWStraightOpt trig layer_gap ⟨left_start, direction⟩
    paddle_length 0 (paddle_width/2)
  let side_start : Pt := ⟨center_pos.x - half_dx + (paddle_length/2) * c,
                          center_pos.y - half_dy + (paddle_length/2) * s⟩
  let side_length := length - paddle_length
  let r_side := CPWStraightOpt trig layer_gap ⟨side_start, direction⟩
    side_length width (uc/2)
  let right_center : Pt := ⟨center_pos.x + half_dx, center_pos.y + half_dy⟩
  let right_start : Pt := ⟨right_center.x - paddle_half_dx, right_center.y - paddle_half_dy⟩
  let r_right := CPWStraightOpt trig layer_gap ⟨right_start, direction⟩
    paddle_length 0 (paddle_width/2)
  (r_main.2, r_left.2 ++ r_side.2 ++ r_right.2)

/-- Embeds `draw_manhattan_junction` (dose_chip_generator.py lines
443-518): two horizontal bandage leads and two angled leads at 45 and 135
degrees, each drawn via `draw_rectangle_cpw` with its default paddle and
undercut parameters (`paddle_width=1.0`, `paddle_length=1.5`, `uc=0.3`).
Both devices are recentered before being returned. -/
def draw_manhattan_junction (trig : ℚ → ℚ × ℚ) (width : ℚ)
    (layer_pin layer_gap : Int) : List LayeredPoly × List LayeredPoly :=
  let bandage_w : ℚ := 0.2
  let bandage_l : ℚ := 20
  let angle_w := width
  let angle_l : ℚ := 10
  let hor_offset : ℚ := 1.5
  let ver_offset : ℚ := 1
  let b1 := draw_rectangle_cpw trig ⟨-hor_offset - bandage_l/2, 0⟩
    bandage_w bandage_l 0 1 1.5 0.3 layer_pin layer_gap
  let b2 := draw_rectangle_cpw trig ⟨hor_offset + bandage_l/2, -ver_offset⟩
    bandage_w bandage_l 0 1 1.5 0.3 layer_pin layer_gap
  let b3 := draw_rectangle_cpw trig ⟨-2*hor_offset, 2*hor_offset/3⟩
    angle_w (1.25*angle_l) 45 1 1.5 0.3 layer_pin layer_gap
  let b4 := draw_rectangle_cpw trig ⟨2*hor_offset, hor_offset - ver_offset⟩
    angle_w (1.25*angle_l) 135 1 1.5 0.3 layer_pin layer_gap
  (recenter (b1.1 ++ b2.1 ++ b3.1 ++ b4.1),
   recenter (b1.2 ++ b2.2 ++ b3.2 ++ b4.2))

/-- Embeds `draw_manhattan_junction_for_dose_test` (dose_chip_generator.py
lines 800-816): the `gap` parameter is accepted for interface
compatibility and ignored. -/
def draw_manhattan_junction_for_dose_test (trig : ℚ → ℚ × ℚ)
    (width gap : ℚ) (layer_pin layer_gap : Int) :
    List LayeredPoly × List LayeredPoly :=
  draw_manhattan_junction trig width layer_pin layer_gap

/-- The process-wide layer context: the module-level `LAYER_PIN` /
`LAYER_GAP` pair of `phidl_bridge`. -/
structure LayerCtx where
  pin : Int
  gap : Int
deriving DecidableEq, Repr

/-- One step of a drawing function as far as the layer context is
concerned: a drawing call (which may raise an exception mid-draw), or an
assignment to `LAYER_PIN` / `LAYER_GAP`. -/
inductive LayerAct where
  | draw
  | setPin (v : Int)
  | setGap (v : Int)
deriving DecidableEq, Repr

/-- Run a straight-line sequence of layer actions.  `fail k` decides
whether the `k`-th drawing call of the run raises; a raise aborts the rest
of the sequence (Python exception propagation), leaving the context as it
was at that moment.  Returns `(none on exception, final context, next
draw-call index)`. -/
def runLayerActs : List LayerAct → (Nat → Bool) → LayerCtx → Nat →
    Option Unit × LayerCtx × Nat
  | [], _, ctx, k => (some (), ctx, k)
  | LayerAct.draw :: rest, fail, ctx, k =>
      if fail k then (none, ctx, k + 1) else runLayerActs rest fail ctx (k + 1)
  | LayerAct.setPin v :: rest, fail, ctx, k =>
      runLayerActs rest fail { ctx with pin := v } k
  | LayerAct.setGap v :: rest, fail, ctx, k =>
      runLayerActs rest fail { ctx with gap := v } k

/-- `n` consecutive drawing calls. -/
def drawCalls (n : Nat) : List LayerAct :=
  List.replicate n LayerAct.draw

/-- Layer-context behaviour of `draw_dolan_junction` (dose_chip_generator.py
lines 142-227): capture `orig`, then inside `try`: set both layers, 6
conductor-pass draw calls, override `LAYER_PIN` to the undercut layer, 9
undercut-pass draw calls; the `finally` block restores both layers on
every exit path, normal or exceptional. -/
def draw_dolan_junction_layers (layer_pin layer_gap : Int) (fail : Nat → Bool)
    (ctx : LayerCtx) : Option Unit × LayerCtx :=
  let body := [LayerAct.setPin layer_pin, LayerAct.setGap layer_gap] ++
    drawCalls 6 ++ [LayerAct.setPin layer_gap] ++ drawCalls 9
  let r := runLayerActs body fail ctx 0
  (r.1, ⟨ctx.pin, ctx.gap⟩)

/-- Layer-context behaviour of `draw_dolan_junction_variable_uc`
(dose_chip_generator.py lines 41-125): identical call structure to the
single Dolan junction, with a `finally` restore. -/
def draw_dolan_junction_variable_uc_layers (layer_pin layer_gap : Int)
    (fail : Nat → Bool) (ctx : LayerCtx) : Option Unit × LayerCtx :=
  let body := [LayerAct.setPin layer_pin, LayerAct.setGap layer_gap] ++
    drawCalls 6 ++ [LayerAct.setPin layer_gap] ++ drawCalls 9
  let r := runLayerActs body fail ctx 0
  (r.1, ⟨ctx.pin, ctx.gap⟩)

/-- Layer-context behaviour of `draw_dolan_junction_array`
(dose_chip_generator.py lines 250-369): `6 + (num_juncs - 1)` conductor
draws, then the override and `9 + 2*(num_juncs - 1)` undercut draws, with
a `finally` restore. -/
def draw_dolan_junction_array_layers (layer_pin layer_gap : Int)
    (num_juncs : Nat) (fail : Nat → Bool) (ctx : LayerCtx) :
    Option Unit × LayerCtx :=
  let body := [LayerAct.setPin layer_pin, LayerAct.setGap layer_gap] ++
    drawCalls (6 + (num_juncs - 1)) ++ [LayerAct.setPin layer_gap] ++
    drawCalls (9 + 2 * (num_juncs - 1))
  let r := runLayerActs body fail ctx 0
  (r.1, ⟨ctx.pin, ctx.gap⟩)

/-- Layer-context behaviour of `draw_asymmetric_junction`
(asymmetric_junction.py lines 39-121): 6 conductor draws, override, 9
undercut draws, `finally` restore. -/
def draw_asymmetric_junction_layers (layer_pin layer_gap : Int)
    (fail : Nat → Bool) (ctx : LayerCtx) : Option Unit × LayerCtx :=
  let body := [LayerAct.setPin layer_pin, LayerAct.setGap layer_gap] ++
    drawCalls 6 ++ [LayerAct.setPin layer_gap] ++ drawCalls 9
  let r := runLayerActs body fail ctx 0
  (r.1, ⟨ctx.pin, ctx.gap⟩)

/-- Layer-context behaviour of `draw_rectangle_cpw` (dose_chip_generator.py
lines 372-439), starting at draw-call index `k`: one conductor draw, then
`LAYER_PIN = LAYER_GAP` (line 411), three undercut draws, and the restore
`LAYER_PIN = orig_layer_pin` (line 439).  There is NO `try`/`finally`
here: the restore is an ordinary last statement, skipped when an
exception propagates. -/
def draw_rectangle_cpw_run (fail : Nat → Bool) (ctx : LayerCtx) (k : Nat) :
    Option Unit × LayerCtx × Nat :=
  runLayerActs [LayerAct.draw, LayerAct.setPin ctx.gap, LayerAct.draw,
    LayerAct.draw, LayerAct.draw, LayerAct.setPin ctx.pin] fail ctx k

/-- `draw_rectangle_cpw` as a whole call: layer context before and after,
plus whether it raised. -/
def draw_rectangle_cpw_layers (fail : Nat → Bool) (ctx : LayerCtx) :
    Option Unit × LayerCtx :=
  let r := draw_rectangle_cpw_run fail ctx 0
  (r.1, r.2.1)

/-- Layer-context behaviour of `draw_manhattan_junction`
(dose_chip_generator.py lines 462-518): inside `try`, set both layers and
call `draw_rectangle_cpw` four times (each with its own internal
save/override/restore); an exception in any call aborts the remaining
calls; the `finally` block restores both layers on every exit path. -/
def draw_manhattan_junction_layers (layer_pin layer_gap : Int)
    (fail : Nat → Bool) (ctx : LayerCtx) : Option Unit × LayerCtx :=
  let start : LayerCtx := ⟨layer_pin, layer_gap⟩
  let r1 := draw_rectangle_cpw_run fail start 0
  let r2 := match r1.1 with
    | none => r1
    | some _ => draw_rectangle_cpw_run fail r1.2.1 r1.2.2
  let r3 := match r2.1 with
    | none => r2
    | some _ => draw_rectangle_cpw_run fail r2.2.1 r2.2.2
  let r4 := match r3.1 with
    | none => r3
    | some _ => draw_rectangle_cpw_run fail r3.2.1 r3.2.2
  (r4.1, ⟨ctx.pin, ctx.gap⟩)

/-- Embeds `Chip._merge_geometry` (phidl_bridge.py lines 871-965) with the
polygon-merge collaborators injected: `shapelyMerge` / `gdspyMerge` are
`some f` when the library is importable and provides union `f`, `none`
when importing it raises `ImportError`.  When both are unavailable the code prints
two warnings and then executes `self.device = merged_device` (line 965)
where `merged_device` was never assigned on this path, raising
`UnboundLocalError` — modelled by `Except.error ()`. -/
def mergeGeometry (shapelyMerge gdspyMerge : Option (List LayeredPoly → List LayeredPoly))
    (device : List LayeredPoly) : Except Unit (List LayeredPoly) :=
  match shapelyMerge with
  | some f => Except.ok (f device)
  | none =>
      match gdspyMerge with
      | some f => Except.ok (f device)
      | none => Except.error ()

/-- One dose-table record `(layer, dose, kind)` with kind one of
`"fullcut"`, `"undercut"`, `"clearing"`. -/
structure DoseEntry where
  layer : Int
  dose : ℚ
  kind : String
deriving DecidableEq, Repr

/-- Embeds the guarded append used on dose tables
(dose_chip_generator.py lines 600-603, 986-989, 1050-1053):
`if layer not in [d[0] for d in dose_table]: dose_table.append(entry)` —
a later entry for an already-present layer is dropped, never
overwritten. -/
def addIfAbsent (tbl : List DoseEntry) (e : DoseEntry) : List DoseEntry :=
  if e.layer ∈ tbl.map DoseEntry.layer then tbl else tbl ++ [e]

/-- Embeds the first-writer-wins deduplication loop of
`DoseChipGenerator.save` (dose_chip_generator.py lines 1125-1128):
`unique_doses[layer] = (dose, dtype)` only `if layer not in unique_doses`,
scanning the accumulated table in insertion order. -/
def dedupFirst (acc : List DoseEntry) : List DoseEntry → List DoseEntry
  | [] => acc
  | e :: rest =>
      if e.layer ∈ acc.map DoseEntry.layer then dedupFirst acc rest
      else dedupFirst (acc ++ [e]) rest

/-- The dose table as written by `DoseChipGenerator.save`
(dose_chip_generator.py lines 1124-1132): first-writer-wins
deduplication, then the retained entries sorted by layer id. -/
def uniqueDoses (tbl : List DoseEntry) : List DoseEntry :=
  (dedupFirst [] tbl).mergeSort (fun a b => a.layer ≤ b.layer)

/-- Embeds `np.linspace(a, b, n)` evaluated at index `k`: `n` evenly
spaced values inclusive of both endpoints. -/
def linspace (a b : ℚ) (n : Nat) (k : Nat) : ℚ :=
  if n ≤ 1 then a else a + (b - a) * k / ((n : ℚ) - 1)

/-- Cell traversal order of `create_dose_test_grid`
(dose_chip_generator.py lines 565-566): columns outer, rows inner. -/
def doseTestCells (n_cols n_rows : Nat) : List (Nat × Nat) :=
  (List.range n_cols).flatMap (fun i => (List.range n_rows).map (fun j => (i, j)))

/-- Dose recording done for one grid cell `(i, j)` of
`create_dose_test_grid` (dose_chip_generator.py lines 599-603): append the
fullcut entry `(base_layer_fc + i, dose_fc, 'fullcut')` if the layer is
new, then the undercut entry `(base_layer_uc + j, dose_uc*4, 'undercut')`
if that layer is new.  The factor 4 is the BEAMER calibration constant. -/
def doseTestRecordCell (base_fc base_uc : Int) (fcv ucv : Nat → ℚ)
    (tbl : List DoseEntry) (ij : Nat × Nat) : List DoseEntry :=
  let tbl1 := addIfAbsent tbl ⟨base_fc + (ij.1 : Int), fcv ij.1, "fullcut"⟩
  addIfAbsent tbl1 ⟨base_uc + (ij.2 : Int), ucv ij.2 * 4, "undercut"⟩

/-- The dose table built by `create_dose_test_grid`
(dose_chip_generator.py lines 553-605): seeded with the clearing entry
`(2, 3000, 'clearing')` and folded over all cells in traversal order. -/
def doseTestGridTable (fc_lo fc_hi uc_lo uc_hi : ℚ) (n_rows n_cols : Nat)
    (base_fc base_uc : Int) : List DoseEntry :=
  (doseTestCells n_cols n_rows).foldl
    (doseTestRecordCell base_fc base_uc
      (linspace fc_lo fc_hi n_cols) (linspace uc_lo uc_hi n_rows))
    [⟨2, 3000, "clearing"⟩]

/-- The junction instances placed by `create_dose_test_grid`
(dose_chip_generator.py lines 565-585), abstracted over the junction
generator's result type: for cell `(i, j)` the junction is produced by
`junction_func width gap (base_fc + i) (base_uc + j)` — the dose values
are not passed to the generator — and placed at
`start + (i*spacing, j*spacing)`. -/
def doseTestGridJunctions {α : Type} (junction_func : ℚ → ℚ → Int → Int → α)
    (width gap : ℚ) (spacing : ℚ) (start : Pt) (n_rows n_cols : Nat)
    (base_fc base_uc : Int) : List (α × Pt) :=
  (doseTestCells n_cols n_rows).map (fun ij =>
    (junction_func width gap (base_fc + (ij.1 : Int)) (base_uc + (ij.2 : Int)),
     ⟨start.x + (ij.1 : ℚ) * spacing, start.y + (ij.2 : ℚ) * spacing⟩))

/-- The per-cell text labels of `create_dose_test_grid`
(dose_chip_generator.py lines 588-592): the rendered text shows the
unscaled dose pair `(dose_fc, dose_uc)`, placed 25 um above the cell. -/
def doseTestGridLabels (fc_lo fc_hi uc_lo uc_hi : ℚ) (spacing : ℚ)
    (start : Pt) (n_rows n_cols : Nat) : List ((ℚ × ℚ) × Pt) :=
  (doseTestCells n_cols n_rows).map (fun ij =>
    ((linspace fc_lo fc_hi n_cols ij.1, linspace uc_lo uc_hi n_rows ij.2),
     ⟨start.x + (ij.1 : ℚ) * spacing, start.y + (ij.2 : ℚ) * spacing + 25⟩))

/-- The output of `create_dose_test_grid` relevant to the spec: placed
junction devices, dose labels, and the accumulated dose table. -/
structure DoseTestGrid (α : Type) where
  junctions : List (α × Pt)
  labels : List ((ℚ × ℚ) × Pt)
  table : List DoseEntry

/-- Embeds `create_dose_test_grid` (dose_chip_generator.py lines
525-605). -/
def create_dose_test_grid {α : Type} (junction_func : ℚ → ℚ → Int → Int → α)
    (width gap : ℚ) (fc_lo fc_hi uc_lo uc_hi : ℚ) (n_rows n_cols : Nat)
    (spacing : ℚ) (start : Pt) (base_fc base_uc : Int) : DoseTestGrid α :=
  { junctions := doseTestGridJunctions junction_func width gap spacing start
      n_rows n_cols base_fc base_uc,
    labels := doseTestGridLabels fc_lo fc_hi uc_lo uc_hi spacing start
      n_rows n_cols,
    table := doseTestGridTable fc_lo fc_hi uc_lo uc_hi n_rows n_cols
      base_fc base_uc }

lemma allPts_cons (lp : LayeredPoly) (rest : List LayeredPoly) :
    allPts (lp :: rest) = lp.poly ++ allPts rest := rfl

lemma allPts_translatePolys (dx dy : ℚ) (polys : List LayeredPoly) :
    allPts (translatePolys dx dy polys) =
      (allPts polys).map (fun p => ⟨p.x + dx, p.y + dy⟩) := by
  induction polys with
  | nil => rfl
  | cons lp rest ih =>
      show lp.poly.map _ ++ allPts (translatePolys dx dy rest) = _
      rw [allPts_cons, List.map_append, ih]

lemma foldMinX_translate (dx dy : ℚ) (l : List Pt) (a : ℚ) :
    foldMinX (l.map (fun p => ⟨p.x + dx, p.y + dy⟩)) (a + dx) =
      foldMinX l a + dx := by
  induction l generalizing a with
  | nil => rfl
  | cons p l ih =>
      simp only [foldMinX, List.map_cons, List.foldl_cons] at ih ⊢
      rw [min_add_add_right]
      exact ih _

lemma foldMaxX_translate (dx dy : ℚ) (l : List Pt) (a : ℚ) :
    foldMaxX (l.map (fun p => ⟨p.x + dx, p.y + dy⟩)) (a + dx) =
      foldMaxX l a + dx := by
  induction l generalizing a with
  | nil => rfl
  | cons p l ih =>
      simp only [foldMaxX, List.map_cons, List.foldl_cons] at ih ⊢
      rw [max_add_add_right]
      exact ih _

lemma foldMinY_translate (dx dy : ℚ) (l : List Pt) (a : ℚ) :
    foldMinY (l.map (fun p => ⟨p.x + dx, p.y + dy⟩)) (a + dy) =
      foldMinY l a + dy := by
  induction l generalizing a with
  | nil => rfl
  | cons p l ih =>
      simp only [foldMinY, List.map_cons, List.foldl_cons] at ih ⊢
      rw [min_add_add_right]
      exact ih _

lemma foldMaxY_translate (dx dy : ℚ) (l : List Pt) (a : ℚ) :
    foldMaxY (l.map (fun p => ⟨p.x + dx, p.y + dy⟩)) (a + dy) =
      foldMaxY l a + dy := by
  induction l generalizing a with
  | nil => rfl
  | cons p l ih =>
      simp only [foldMaxY, List.map_cons, List.foldl_cons] at ih ⊢
      rw [max_add_add_right]
      exact ih _

lemma bboxCenter_nil (P : List LayeredPoly) (h : allPts P = []) :
    bboxCenter P = ⟨0, 0⟩ := by
  unfold bboxCenter
  rw [h]

lemma bboxCenter_cons (P : List LayeredPoly) (q : Pt) (qs : List Pt)
    (h : allPts P = q :: qs) :
    bboxCenter P = ⟨(foldMinX qs q.x + foldMaxX qs q.x) / 2,
                    (foldMinY qs q.y + foldMaxY qs q.y) / 2⟩ := by
  unfold bboxCenter
  rw [h]

/-- Recentering really lands the bounding-box center on the origin: the
common postcondition of every junction generator. -/
lemma bboxCenter_recenter (polys : List LayeredPoly) :
    bboxCenter (recenter polys) = ⟨0, 0⟩ := by
  rcases h : allPts polys with _ | ⟨q, qs⟩
  · apply bboxCenter_nil
    unfold recenter
    rw [allPts_translatePolys, h]
    rfl
  · have hc := bboxCenter_cons polys q qs h
    have h2 : allPts (recenter polys) =
        (⟨q.x + -(bboxCenter polys).x, q.y + -(bboxCenter polys).y⟩ : Pt) ::
          qs.map (fun p =>
            ⟨p.x + -(bboxCenter polys).x, p.y + -(bboxCenter polys).y⟩) := by
      unfold recenter
      rw [allPts_translatePolys, h]
      rfl
    rw [bboxCenter_cons _ _ _ h2]
    have hminx := foldMinX_translate (-(bboxCenter polys).x)
      (-(bboxCenter polys).y) qs q.x
    have hmaxx := foldMaxX_translate (-(bboxCenter polys).x)
      (-(bboxCenter polys).y) qs q.x
    have hminy := foldMinY_translate (-(bboxCenter polys).x)
      (-(bboxCenter polys).y) qs q.y
    have hmaxy := foldMaxY_translate (-(bboxCenter polys).x)
      (-(bboxCenter polys).y) qs q.y
    have hx : -(bboxCenter polys).x = -((foldMinX qs q.x + foldMaxX qs q.x) / 2) := by
      rw [hc]
    have hy : -(bboxCenter polys).y = -((foldMinY qs q.y + foldMaxY qs q.y) / 2) := by
      rw [hc]
    show (⟨(foldMinX (qs.map _) (q.x + -(bboxCenter polys).x) +
            foldMaxX (qs.map _) (q.x + -(bboxCenter polys).x)) / 2,
          (foldMinY (qs.map _) (q.y + -(bboxCenter polys).y) +
            foldMaxY (qs.map _) (q.y + -(bboxCenter polys).y)) / 2⟩ : Pt) = ⟨0, 0⟩
    rw [hminx, hmaxx, hminy, hmaxy]
    rw [Pt.mk.injEq]
    rw [hx, hy]
    constructor <;> ring

/-- Signed perpendicular offset of each vertex of a polygon from the line
through `pos` with direction (cosine, sine) = `(c, s)`: the dot product
with the perpendicular unit vector `(-s, c)`. -/
def perpOffsets (c s : ℚ) (pos : Pt) (lp : LayeredPoly) : List ℚ :=
  lp.poly.map (fun p => (p.x - pos.x) * (-s) + (p.y - pos.y) * c)

/-- The y-coordinates of a polygon's vertices, in order.  For heading-0
drawing along the x-axis this lists each vertex's perpendicular offset
from the centerline `y = 0`. -/
def ptYs (lp : LayeredPoly) : List ℚ :=
  lp.poly.map Pt.y

/-- C4.  When the polygon-merge collaborator is unavailable (neither
shapely nor gdspy imports), the save path does NOT fall back to unmerged
polygons: `Chip._merge_geometry` reaches line 965,
`self.device = merged_device`, with `merged_device` unbound on that path,
and raises `UnboundLocalError` — contradicting the claim that save
reports the condition and emits the accumulated polygons unmerged.  The
embedded merge at a concrete one-polygon device returns the error
outcome. -/
theorem merge_geometry_unavailable_raises :
    mergeGeometry none none [⟨1, [⟨0, 0⟩, ⟨1, 0⟩, ⟨0, 1⟩]⟩] =
      Except.error () := rfl

/-- C5.  A straight segment of length `L` drawn from position `(x, y)` at
heading `d` moves the path state to exactly
`(x + L*cos d, y + L*sin d)` — with `c`/`s` standing for the computed
cosine/sine of the heading — and leaves the heading unchanged, in both
drawing modes. -/
theorem straight_segment_endpoint (twoLayer : Bool) (c s L pinw gapw : ℚ)
    (layer_pin layer_gap : Int) (st : PathState) :
    (add_cpw_straight twoLayer c s L pinw gapw layer_pin layer_gap st).1 =
      ⟨⟨st.pos.x + L * c, st.pos.y + L * s⟩, st.dir⟩ := rfl

/-- C6.  Every junction generator — single Dolan, variable-undercut,
series array, Manhattan, and asymmetric — returns both its conductor
device and its undercut device with bounding-box center exactly at the
origin, for every parameter set. -/
theorem generators_centered_at_origin (trig : ℚ → ℚ × ℚ)
    (width gap left_width right_width uc : ℚ) (layer_pin layer_gap : Int)
    (num_juncs : Nat) :
    bboxCenter (draw_dolan_junction trig width gap layer_pin layer_gap right_width).1 = ⟨0, 0⟩ ∧
    bboxCenter (draw_dolan_junction trig width gap layer_pin layer_gap right_width).2 = ⟨0, 0⟩ ∧
    bboxCenter (draw_dolan_junction_variable_uc trig width gap layer_pin layer_gap uc right_width).1 = ⟨0, 0⟩ ∧
    bboxCenter (draw_dolan_junction_variable_uc trig width gap layer_pin layer_gap uc right_width).2 = ⟨0, 0⟩ ∧
    bboxCenter (draw_dolan_junction_array trig width gap layer_pin layer_gap right_width num_juncs).1 = ⟨0, 0⟩ ∧
    bboxCenter (draw_dolan_junction_array trig width gap layer_pin layer_gap right_width num_juncs).2 = ⟨0, 0⟩ ∧
    bboxCenter (draw_manhattan_junction trig width layer_pin layer_gap).1 = ⟨0, 0⟩ ∧
    bboxCenter (draw_manhattan_junction trig width layer_pin layer_gap).2 = ⟨0, 0⟩ ∧
    bboxCenter (draw_asymmetric_junction trig width gap layer_pin layer_gap left_width right_width).1 = ⟨0, 0⟩ ∧
    bboxCenter (draw_asymmetric_junction trig width gap layer_pin layer_gap left_width right_width).2 = ⟨0, 0⟩ :=
  ⟨bboxCenter_recenter _, bboxCenter_recenter _, bboxCenter_recenter _,
   bboxCenter_recenter _, bboxCenter_recenter _, bboxCenter_recenter _,
   bboxCenter_recenter _, bboxCenter_recenter _, bboxCenter_recenter _,
   bboxCenter_recenter _⟩

/-- C9.  The Manhattan junction's dose-test wrapper ignores its `gap`
parameter: two calls with identical width and layer identifiers but
arbitrary different gap values return identical conductor and undercut
shapes, polygon for polygon. -/
theorem manhattan_gap_irrelevant (trig : ℚ → ℚ × ℚ) (width gap1 gap2 : ℚ)
    (layer_pin layer_gap : Int) :
    draw_manhattan_junction_for_dose_test trig width gap1 layer_pin layer_gap =
      draw_manhattan_junction_for_dose_test trig width gap2 layer_pin layer_gap := rfl

/-- C10.  In single-layer (optical) mode a straight segment with
`gapw = 0` emits no polygon at all — even with `pinw > 0` — while the
tracked position still advances by the full segment length along the
heading and the heading is unchanged. -/
theorem optical_straight_zero_gap_skips_drawing (c s L pinw : ℚ)
    (layer_pin layer_gap : Int) (st : PathState) (hpin : 0 < pinw) :
    (add_cpw_straight false c s L pinw 0 layer_pin layer_gap st).2 = [] ∧
    (add_cpw_straight false c s L pinw 0 layer_pin layer_gap st).1 =
      ⟨⟨st.pos.x + L * c, st.pos.y + L * s⟩, st.dir⟩ := by
  constructor
  · simp [add_cpw_straight]
  · rfl

/-- Witness for C10 at a concrete input: `pinw = 2 > 0`, a length-5
segment at heading 0 from the origin draws nothing and moves the state
to `(5, 0)`. -/
theorem optical_straight_zero_gap_skips_drawing_witness :
    (add_cpw_straight false 1 0 5 2 0 1 2 ⟨⟨0, 0⟩, 0⟩).2 = [] ∧
    (add_cpw_straight false 1 0 5 2 0 1 2 ⟨⟨0, 0⟩, 0⟩).1 =
      ⟨⟨0 + 5 * 1, 0 + 5 * 0⟩, 0⟩ :=
  optical_straight_zero_gap_skips_drawing 1 0 5 2 1 2 ⟨⟨0, 0⟩, 0⟩ (by norm_num)

/-- C1 counterexample.  `draw_rectangle_cpw` has no `try`/`finally`: with
the layer context at `(pin=1, gap=2)`, if the second drawing call (the
left paddle, the first call after the override `LAYER_PIN = LAYER_GAP`)
raises, the exception propagates with the override still installed — the
context is left at `(pin=2, gap=2)`, not restored to `(1, 2)`. -/
theorem rectangle_cpw_leaks_override_on_exception :
    (draw_rectangle_cpw_layers (fun k => k == 1) ⟨1, 2⟩).1 = none ∧
    (draw_rectangle_cpw_layers (fun k => k == 1) ⟨1, 2⟩).2 = ⟨2, 2⟩ ∧
    (draw_rectangle_cpw_layers (fun k => k == 1) ⟨1, 2⟩).2 ≠ ⟨1, 2⟩ := by
  refine ⟨rfl, rfl, ?_⟩
  decide

/-- C1 amended.  The junction generators that install a temporary layer
override inside `try`/`finally` — `draw_dolan_junction`,
`draw_dolan_junction_variable_uc`, `draw_dolan_junction_array`,
`draw_manhattan_junction`, `draw_asymmetric_junction` — restore the prior
context on every exit path, normal or exceptional.  `draw_rectangle_cpw`,
by contrast, restores the prior context only on the normal exit path (its
restore is an ordinary trailing statement, not a `finally`). -/
theorem layer_context_restored (ctx : LayerCtx) (layer_pin layer_gap : Int)
    (num_juncs : Nat) (fail : Nat → Bool) :
    (draw_dolan_junction_layers layer_pin layer_gap fail ctx).2 = ctx ∧
    (draw_dolan_junction_variable_uc_layers layer_pin layer_gap fail ctx).2 = ctx ∧
    (draw_dolan_junction_array_layers layer_pin layer_gap num_juncs fail ctx).2 = ctx ∧
    (draw_manhattan_junction_layers layer_pin layer_gap fail ctx).2 = ctx ∧
    (draw_asymmetric_junction_layers layer_pin layer_gap fail ctx).2 = ctx ∧
    ((draw_rectangle_cpw_layers fail ctx).1 = some () →
      (draw_rectangle_cpw_layers fail ctx).2 = ctx) := by
  refine ⟨rfl, rfl, rfl, rfl, rfl, ?_⟩
  intro h
  by_cases h0 : fail 0 <;> by_cases h1 : fail 1 <;>
    by_cases h2 : fail 2 <;> by_cases h3 : fail 3 <;>
    simp_all [draw_rectangle_cpw_layers, draw_rectangle_cpw_run, runLayerActs]

/-- Witness for C1 amended at a concrete input: with no exception,
`draw_rectangle_cpw` does restore the prior context `(1, 2)`. -/
theorem layer_context_restored_witness :
    (draw_rectangle_cpw_layers (fun _ => false) ⟨1, 2⟩).2 = ⟨1, 2⟩ :=
  (layer_context_restored ⟨1, 2⟩ 3 4 2 (fun _ => false)).2.2.2.2.2 (by decide)

/-- C2 counterexample.  At heading 0 with `pinw = 1`, `gapw = 1`, the two
emitted strips occupy perpendicular intervals `[-3/2, -1/2]` and
`[1/2, 3/2]`: the clear gap between their inner edges is
`1/2 - (-1/2) = 1 = pinw`, not `2*gapw = 2` as the claim states. -/
theorem optical_two_strip_clear_gap_cex :
    (add_cpw_straight false 1 0 1 1 1 1 2 ⟨⟨0, 0⟩, 0⟩).2.length = 2 ∧
    ptYs ((add_cpw_straight false 1 0 1 1 1 1 2 ⟨⟨0, 0⟩, 0⟩).2.getD 0 ⟨0, []⟩) =
      [-(3/2), -(1/2), -(1/2), -(3/2)] ∧
    ptYs ((add_cpw_straight false 1 0 1 1 1 1 2 ⟨⟨0, 0⟩, 0⟩).2.getD 1 ⟨0, []⟩) =
      [1/2, 3/2, 3/2, 1/2] ∧
    ¬ ((1/2 : ℚ) - (-(1/2)) = 2 * 1) := by
  refine ⟨?_, ?_, ?_, by norm_num⟩ <;> norm_num [add_cpw_straight, ptYs]

/-- C2 amended.  For a straight optical-mode segment with `gapw > 0`
(`(c, s)` the heading's cosine/sine pair): with `pinw = 0` exactly one
solid rectangle is emitted on the active layer, spanning perpendicular
offsets `-gapw .. gapw` (width `2*gapw`, centered on the centerline);
with `pinw > 0` exactly two rectangles are emitted on the active layer,
spanning `-(pinw/2) - gapw .. -(pinw/2)` and `pinw/2 .. pinw/2 + gapw`
(each of width `gapw`, centered at offset `±(pinw/2 + gapw/2)`), leaving
a clear gap of width `pinw` — not `2*gapw` — between them. -/
theorem optical_straight_geometry (c s L pinw gapw : ℚ)
    (layer_pin layer_gap : Int) (st : PathState)
    (hcs : c * c + s * s = 1) (hg : 0 < gapw) :
    (pinw = 0 →
      (add_cpw_straight false c s L pinw gapw layer_pin layer_gap st).2.length = 1 ∧
      ((add_cpw_straight false c s L pinw gapw layer_pin layer_gap st).2.getD 0 ⟨0, []⟩).layer = layer_pin ∧
      perpOffsets c s st.pos
        ((add_cpw_straight false c s L pinw gapw layer_pin layer_gap st).2.getD 0 ⟨0, []⟩) =
        [-gapw, gapw, gapw, -gapw]) ∧
    (0 < pinw →
      (add_cpw_straight false c s L pinw gapw layer_pin layer_gap st).2.length = 2 ∧
      ((add_cpw_straight false c s L pinw gapw layer_pin layer_gap st).2.getD 0 ⟨0, []⟩).layer = layer_pin ∧
      ((add_cpw_straight false c s L pinw gapw layer_pin layer_gap st).2.getD 1 ⟨0, []⟩).layer = layer_pin ∧
      perpOffsets c s st.pos
        ((add_cpw_straight false c s L pinw gapw layer_pin layer_gap st).2.getD 0 ⟨0, []⟩) =
        [-(pinw/2 + gapw), -(pinw/2), -(pinw/2), -(pinw/2 + gapw)] ∧
      perpOffsets c s st.pos
        ((add_cpw_straight false c s L pinw gapw layer_pin layer_gap st).2.getD 1 ⟨0, []⟩) =
        [pinw/2, pinw/2 + gapw, pinw/2 + gapw, pinw/2]) := by
  constructor
  · intro hp
    subst hp
    simp [add_cpw_straight, hg, perpOffsets]
    refine ⟨by linear_combination (-gapw) * hcs, by linear_combination gapw * hcs,
      by linear_combination gapw * hcs, by linear_combination (-gapw) * hcs⟩
  · intro hp
    have hp0 : pinw ≠ 0 := ne_of_gt hp
    simp [add_cpw_straight, hg, hp0, perpOffsets]
    refine ⟨⟨by linear_combination (-(pinw/2 + gapw)) * hcs,
      by linear_combination (-(pinw/2)) * hcs,
      by linear_combination (-(pinw/2)) * hcs,
      by linear_combination (-(pinw/2 + gapw)) * hcs⟩,
      by linear_combination (pinw/2) * hcs,
      by linear_combination (pinw/2 + gapw) * hcs,
      by linear_combination (pinw/2 + gapw) * hcs,
      by linear_combination (pinw/2) * hcs⟩

/-- Witness for C2 amended at a concrete input: heading 0
(`(c, s) = (1, 0)`), `pinw = 1`, `gapw = 1`. -/
theorem optical_straight_geometry_witness :
    ((1 : ℚ) * 1 + 0 * 0 = 1) ∧ ((0 : ℚ) < 1) ∧
    (((0 : ℚ) < 1) →
      (add_cpw_straight false 1 0 1 1 1 1 2 ⟨⟨0, 0⟩, 0⟩).2.length = 2 ∧
      ((add_cpw_straight false 1 0 1 1 1 1 2 ⟨⟨0, 0⟩, 0⟩).2.getD 0 ⟨0, []⟩).layer = 1 ∧
      ((add_cpw_straight false 1 0 1 1 1 1 2 ⟨⟨0, 0⟩, 0⟩).2.getD 1 ⟨0, []⟩).layer = 1 ∧
      perpOffsets 1 0 (⟨0, 0⟩ : Pt)
        ((add_cpw_straight false 1 0 1 1 1 1 2 ⟨⟨0, 0⟩, 0⟩).2.getD 0 ⟨0, []⟩) =
        [-(1/2 + 1), -(1/2), -(1/2), -(1/2 + 1)] ∧
      perpOffsets 1 0 (⟨0, 0⟩ : Pt)
        ((add_cpw_straight false 1 0 1 1 1 1 2 ⟨⟨0, 0⟩, 0⟩).2.getD 1 ⟨0, []⟩) =
        [1/2, 1/2 + 1, 1/2 + 1, 1/2]) :=
  ⟨by norm_num, by norm_num,
   (optical_straight_geometry 1 0 1 1 1 1 2 ⟨⟨0, 0⟩, 0⟩ (by norm_num) (by norm_num)).2⟩

/-- The fourth polygon of the Dolan conductor pass (index 3: bar, taper,
left thin, right thin, ...) is the right thin electrode; drawn at heading
0 it is a solid bar spanning `y = -(rw/2) .. rw/2`, i.e. of width exactly
the `rw` the pass was given. -/
lemma dolan_pin_pass_right_thin (trig : ℚ → ℚ × ℚ)
    (htrig : trig 0 = ((1 : ℚ), 0)) (width gap rw : ℚ)
    (hw : 0 < width) (hr : 0 < rw) (l : Int) :
    ptYs ((dolan_pin_pass trig width rw gap l).getD 3 ⟨0, []⟩) =
      [-(rw/2), rw/2, rw/2, -(rw/2)] := by
  have h1 : width / 2 > 0 := by positivity
  have h2 : rw / 2 > 0 := by positivity
  simp [dolan_pin_pass, CPWStraightOpt, CPWLinearTaperOpt, structure_jump,
    add_cpw_straight, add_cpw_taper, transform_point, htrig,
    bar_w, taper_l, thin_l, h1, h2, ptYs]

/-- C3 counterexample.  `draw_dolan_junction` does not enforce
`right_width = max(width, right_width)`: with `width = 3` and the default
`right_width = 2`, its conductor pass draws the right thin electrode with
width 2 (spanning `y = -1 .. 1`), not `max(3, 2) = 3`. -/
theorem dolan_right_width_not_clamped_cex :
    ptYs ((dolan_pin_pass (fun _ => (1, 0)) 3 2 (1/5) 1).getD 3 ⟨0, []⟩) =
      [-1, 1, 1, -1] ∧
    ¬ (ptYs ((dolan_pin_pass (fun _ => (1, 0)) 3 2 (1/5) 1).getD 3 ⟨0, []⟩) =
        [-(max 3 2 / 2), max 3 2 / 2, max 3 2 / 2, -(max 3 2 / 2)]) := by
  constructor
  · have := dolan_pin_pass_right_thin (fun _ => (1, 0)) rfl 3 (1/5) 2
      (by norm_num) (by norm_num) 1
    simpa using this
  · have := dolan_pin_pass_right_thin (fun _ => (1, 0)) rfl 3 (1/5) 2
      (by norm_num) (by norm_num) 1
    rw [this]
    norm_num

/-- C3 amended.  The policy `right_width = max(left_width, right_width)`
is enforced by `draw_dolan_junction_variable_uc` (and by
`draw_dolan_junction_array`), whose conductor pass draws the right thin
electrode with width `max(width, right_width)`; `draw_dolan_junction`
itself applies no such floor — its conductor pass draws the right thin
electrode with exactly the `right_width` passed in. -/
theorem dolan_right_width_policy (trig : ℚ → ℚ × ℚ)
    (htrig : trig 0 = ((1 : ℚ), 0)) (width gap right_width : ℚ)
    (hw : 0 < width) (hr : 0 < right_width) (l : Int) :
    ptYs ((dolan_pin_pass trig width right_width gap l).getD 3 ⟨0, []⟩) =
      [-(right_width/2), right_width/2, right_width/2, -(right_width/2)] ∧
    ptYs ((dolan_pin_pass trig width (max width right_width) gap l).getD 3 ⟨0, []⟩) =
      [-(max width right_width/2), max width right_width/2,
       max width right_width/2, -(max width right_width/2)] :=
  ⟨dolan_pin_pass_right_thin trig htrig width gap right_width hw hr l,
   dolan_pin_pass_right_thin trig htrig width gap (max width right_width) hw
     (lt_max_of_lt_right hr) l⟩

/-- Witness for C3 amended at a concrete input: `width = 3`,
`right_width = 2`, heading-0 trigonometry. -/
theorem dolan_right_width_policy_witness :
    ((fun _ => ((1 : ℚ), (0 : ℚ))) (0 : ℚ) = ((1 : ℚ), 0)) ∧ ((0 : ℚ) < 3) ∧ ((0 : ℚ) < 2) ∧
    (ptYs ((dolan_pin_pass (fun _ => (1, 0)) 3 2 (1/5) 1).getD 3 ⟨0, []⟩) =
      [-(2/2), 2/2, 2/2, -(2/2)] ∧
     ptYs ((dolan_pin_pass (fun _ => (1, 0)) 3 (max 3 2) (1/5) 1).getD 3 ⟨0, []⟩) =
      [-(max 3 2/2), max 3 2/2, max 3 2/2, -(max 3 2/2)]) :=
  ⟨rfl, by norm_num, by norm_num,
   dolan_right_width_policy (fun _ => (1, 0)) rfl 3 (1/5) 2
     (by norm_num) (by norm_num) 1⟩

lemma addIfAbsent_of_mem {tbl : List DoseEntry} {e : DoseEntry}
    (h : e.layer ∈ tbl.map DoseEntry.layer) : addIfAbsent tbl e = tbl := by
  unfold addIfAbsent
  rw [if_pos h]

lemma addIfAbsent_of_not_mem {tbl : List DoseEntry} {e : DoseEntry}
    (h : e.layer ∉ tbl.map DoseEntry.layer) : addIfAbsent tbl e = tbl ++ [e] := by
  unfold addIfAbsent
  rw [if_neg h]

lemma mem_addIfAbsent {tbl : List DoseEntry} {e x : DoseEntry}
    (h : x ∈ addIfAbsent tbl e) : x ∈ tbl ∨ x = e := by
  unfold addIfAbsent at h
  split at h
  · exact Or.inl h
  · rcases List.mem_append.mp h with h' | h'
    · exact Or.inl h'
    · exact Or.inr (by simpa using h')

lemma keys_mem_addIfAbsent_self (tbl : List DoseEntry) (e : DoseEntry) :
    e.layer ∈ (addIfAbsent tbl e).map DoseEntry.layer := by
  unfold addIfAbsent
  split
  · assumption
  · simp

lemma keys_mem_addIfAbsent_mono {tbl : List DoseEntry} {k : Int} (e : DoseEntry)
    (h : k ∈ tbl.map DoseEntry.layer) :
    k ∈ (addIfAbsent tbl e).map DoseEntry.layer := by
  unfold addIfAbsent
  split
  · exact h
  · simp only [List.map_append, List.mem_append]
    exact Or.inl h

lemma keys_sub_dedupFirst {k : Int} :
    ∀ (l acc : List DoseEntry), k ∈ acc.map DoseEntry.layer →
      k ∈ (dedupFirst acc l).map DoseEntry.layer := by
  intro l
  induction l with
  | nil => intro acc h; exact h
  | cons e rest ih =>
      intro acc h
      unfold dedupFirst
      split
      · exact ih acc h
      · exact ih (acc ++ [e]) (by simp only [List.map_append, List.mem_append]; exact Or.inl h)

lemma mem_keys_dedupFirst_of_mem {x : DoseEntry} :
    ∀ (l acc : List DoseEntry), x ∈ l →
      x.layer ∈ (dedupFirst acc l).map DoseEntry.layer := by
  intro l
  induction l with
  | nil => intro acc h; exact absurd h (List.not_mem_nil x)
  | cons e rest ih =>
      intro acc h
      unfold dedupFirst
      rcases List.mem_cons.mp h with rfl | hrest
      · split
        · exact keys_sub_dedupFirst rest acc (by assumption)
        · exact keys_sub_dedupFirst rest (acc ++ [x]) (by simp)
      · split
        · exact ih acc hrest
        · exact ih (acc ++ [e]) hrest

lemma keys_nodup_dedupFirst :
    ∀ (l acc : List DoseEntry), ((acc.map DoseEntry.layer).Nodup) →
      ((dedupFirst acc l).map DoseEntry.layer).Nodup := by
  intro l
  induction l with
  | nil => intro acc h; exact h
  | cons e rest ih =>
      intro acc h
      unfold dedupFirst
      split
      · exact ih acc h
      · refine ih (acc ++ [e]) ?_
        simp only [List.map_append, List.map_cons, List.map_nil]
        rw [List.nodup_append]
        refine ⟨h, List.nodup_singleton _, ?_⟩
        intro a ha hb
        simp only [List.mem_singleton] at hb
        subst hb
        exact (by assumption : e.layer ∉ acc.map DoseEntry.layer) ha

lemma mem_dedupFirst {x : DoseEntry} :
    ∀ (l acc : List DoseEntry), x ∈ dedupFirst acc l →
      x ∈ acc ∨ (x.layer ∉ acc.map DoseEntry.layer ∧
        l.find? (fun e => e.layer == x.layer) = some x) := by
  intro l
  induction l with
  | nil => intro acc h; exact Or.inl h
  | cons e rest ih =>
      intro acc h
      unfold dedupFirst at h
      by_cases hm : e.layer ∈ acc.map DoseEntry.layer
      · rw [if_pos hm] at h
        rcases ih acc h with h' | ⟨hk, hf⟩
        · exact Or.inl h'
        · right
          refine ⟨hk, ?_⟩
          have hne : ¬((fun d => d.layer == x.layer) e = true) := by
            simp only [beq_iff_eq]
            intro hEq
            exact hk (hEq ▸ hm)
          rw [List.find?_cons_of_neg rest hne]
          exact hf
      · rw [if_neg hm] at h
        rcases ih (acc ++ [e]) h with h' | ⟨hk, hf⟩
        · rcases List.mem_append.mp h' with ha | he
          · exact Or.inl ha
          · have hx : x = e := by simpa using he
            subst hx
            right
            exact ⟨hm, by rw [List.find?_cons_of_pos _ (by simp)]⟩
        · right
          simp only [List.map_append, List.map_cons, List.map_nil] at hk
          rw [List.mem_append] at hk
          push_neg at hk
          refine ⟨hk.1, ?_⟩
          have hne : ¬((fun d => d.layer == x.layer) e = true) := by
            simp only [beq_iff_eq]
            intro hEq
            exact hk.2 (by simp [hEq])
          rw [List.find?_cons_of_neg rest hne]
          exact hf

/-- C7.  The dose table keeps at most one entry per layer id with a
first-writer-wins policy.  (a) Within a grid's construction, the guarded
append drops a later entry for a present layer unchanged and appends a
new-layer entry at the end.  (b) The table written by the chip assembly's
save: its layer ids are pairwise distinct, every written entry is exactly
the FIRST entry inserted for its layer (so a later duplicate never
overwrites it), and every inserted layer is represented. -/
theorem dose_table_first_writer_wins :
    (∀ (tbl : List DoseEntry) (e : DoseEntry),
      (e.layer ∈ tbl.map DoseEntry.layer → addIfAbsent tbl e = tbl) ∧
      (e.layer ∉ tbl.map DoseEntry.layer → addIfAbsent tbl e = tbl ++ [e])) ∧
    (∀ tbl : List DoseEntry,
      ((uniqueDoses tbl).map DoseEntry.layer).Nodup ∧
      (∀ x ∈ uniqueDoses tbl,
        tbl.find? (fun e => e.layer == x.layer) = some x) ∧
      (∀ e ∈ tbl, ∃ x ∈ uniqueDoses tbl, x.layer = e.layer)) := by
  constructor
  · intro tbl e
    exact ⟨addIfAbsent_of_mem, addIfAbsent_of_not_mem⟩
  · intro tbl
    have hperm : List.Perm (uniqueDoses tbl) (dedupFirst [] tbl) :=
      List.mergeSort_perm _ _
    refine ⟨?_, ?_, ?_⟩
    · have h1 := keys_nodup_dedupFirst tbl [] (by simp)
      exact ((hperm.map DoseEntry.layer).nodup_iff).mpr h1
    · intro x hx
      have hx' : x ∈ dedupFirst [] tbl := hperm.mem_iff.mp hx
      rcases mem_dedupFirst tbl [] hx' with h | ⟨_, hf⟩
      · exact absurd h (List.not_mem_nil x)
      · exact hf
    · intro e he
      have hk := mem_keys_dedupFirst_of_mem tbl [] he
      rcases List.mem_map.mp hk with ⟨x, hx, hlx⟩
      exact ⟨x, hperm.mem_iff.mpr hx, hlx⟩

/-- Witness for C7 at a concrete input: inserting two entries for layer 1
(values 100 then 200) yields a written table whose only layer-1 entry is
the first-inserted value 100. -/
theorem dose_table_first_writer_wins_witness :
    (addIfAbsent [⟨1, 100, "fullcut"⟩] ⟨1, 200, "undercut"⟩ = [⟨1, 100, "fullcut"⟩]) ∧
    ([⟨1, 100, "fullcut"⟩, ⟨1, 200, "undercut"⟩] : List DoseEntry).find?
      (fun e => e.layer == (1 : Int)) = some ⟨1, 100, "fullcut"⟩ :=
  ⟨(dose_table_first_writer_wins.1 [⟨1, 100, "fullcut"⟩] ⟨1, 200, "undercut"⟩).1 (by decide),
   (dose_table_first_writer_wins.2 [⟨1, 100, "fullcut"⟩, ⟨1, 200, "undercut"⟩]).2.1
     ⟨1, 100, "fullcut"⟩ (by
        show _ ∈ uniqueDoses _
        unfold uniqueDoses
        simp [dedupFirst, List.mergeSort_singleton])⟩

lemma mem_doseTestCells {i j n_cols n_rows : Nat} :
    (i, j) ∈ doseTestCells n_cols n_rows ↔ i < n_cols ∧ j < n_rows := by
  simp [doseTestCells]

lemma mem_doseTestFold (bfc buc : Int) (fcv ucv : Nat → ℚ) {x : DoseEntry} :
    ∀ (l : List (Nat × Nat)) (acc : List DoseEntry),
      x ∈ l.foldl (doseTestRecordCell bfc buc fcv ucv) acc →
      x ∈ acc ∨ ∃ ij ∈ l,
        x = ⟨bfc + (ij.1 : Int), fcv ij.1, "fullcut"⟩ ∨
        x = ⟨buc + (ij.2 : Int), ucv ij.2 * 4, "undercut"⟩ := by
  intro l
  induction l with
  | nil => intro acc h; exact Or.inl h
  | cons ij rest ih =>
      intro acc h
      rw [List.foldl_cons] at h
      rcases ih _ h with h' | ⟨ij', hij', hcase⟩
      · unfold doseTestRecordCell at h'
        rcases mem_addIfAbsent h' with h'' | rfl
        · rcases mem_addIfAbsent h'' with h3 | rfl
          · exact Or.inl h3
          · exact Or.inr ⟨ij, List.mem_cons_self ij rest, Or.inl rfl⟩
        · exact Or.inr ⟨ij, List.mem_cons_self ij rest, Or.inr rfl⟩
      · exact Or.inr ⟨ij', List.mem_cons_of_mem ij hij', hcase⟩

lemma keys_mem_doseTestFold_mono (bfc buc : Int) (fcv ucv : Nat → ℚ) {k : Int} :
    ∀ (l : List (Nat × Nat)) (acc : List DoseEntry),
      k ∈ acc.map DoseEntry.layer →
      k ∈ (l.foldl (doseTestRecordCell bfc buc fcv ucv) acc).map DoseEntry.layer := by
  intro l
  induction l with
  | nil => intro acc h; exact h
  | cons ij rest ih =>
      intro acc h
      rw [List.foldl_cons]
      exact ih _ (keys_mem_addIfAbsent_mono _ (keys_mem_addIfAbsent_mono _ h))

lemma uc_key_present (bfc buc : Int) (fcv ucv : Nat → ℚ) :
    ∀ (l : List (Nat × Nat)) (acc : List DoseEntry) (ij : Nat × Nat), ij ∈ l →
      (buc + (ij.2 : Int)) ∈
        (l.foldl (doseTestRecordCell bfc buc fcv ucv) acc).map DoseEntry.layer := by
  intro l
  induction l with
  | nil => intro acc ij h; exact absurd h (List.not_mem_nil ij)
  | cons a rest ih =>
      intro acc ij h
      rw [List.foldl_cons]
      rcases List.mem_cons.mp h with rfl | hrest
      · refine keys_mem_doseTestFold_mono bfc buc fcv ucv rest _ ?_
        exact keys_mem_addIfAbsent_self _ _
      · exact ih _ ij hrest

lemma fc_key_present (bfc buc : Int) (fcv ucv : Nat → ℚ) :
    ∀ (l : List (Nat × Nat)) (acc : List DoseEntry) (ij : Nat × Nat), ij ∈ l →
      (bfc + (ij.1 : Int)) ∈
        (l.foldl (doseTestRecordCell bfc buc fcv ucv) acc).map DoseEntry.layer := by
  intro l
  induction l with
  | nil => intro acc ij h; exact absurd h (List.not_mem_nil ij)
  | cons a rest ih =>
      intro acc ij h
      rw [List.foldl_cons]
      rcases List.mem_cons.mp h with rfl | hrest
      · refine keys_mem_doseTestFold_mono bfc buc fcv ucv rest _ ?_
        exact keys_mem_addIfAbsent_mono _ (keys_mem_addIfAbsent_self _ _)
      · exact ih _ ij hrest

/-- C8.  In every dose-sweep grid: the dose-table entry recorded for an
undercut layer `base_uc + j` stores exactly `4 *` the undercut dose value
`linspace uc_lo uc_hi n_rows j` passed to the sweep, tagged `"undercut"`,
while the fullcut entry for `base_fc + i` stores the unscaled dose tagged
`"fullcut"` (hypotheses: the grid is nonempty along the other axis and
the queried layer id is not also a clearing/fullcut/undercut layer of the
other kind); and the scaling never touches the emitted junction geometry —
the placed junction devices are identical for any two dose-range
settings. -/
theorem dose_test_grid_undercut_scaling {α : Type}
    (junction_func : ℚ → ℚ → Int → Int → α)
    (width gap fc_lo fc_hi uc_lo uc_hi fc_lo2 fc_hi2 uc_lo2 uc_hi2 spacing : ℚ)
    (start : Pt) (n_rows n_cols : Nat) (base_fc base_uc : Int) :
    (∀ j : Nat, j < n_rows → 1 ≤ n_cols →
      (2 : Int) ≠ base_uc + (j : Int) →
      (∀ i : Nat, i < n_cols → base_fc + (i : Int) ≠ base_uc + (j : Int)) →
      (create_dose_test_grid junction_func width gap fc_lo fc_hi uc_lo uc_hi
          n_rows n_cols spacing start base_fc base_uc).table.find?
          (fun e => e.layer == base_uc + (j : Int)) =
        some ⟨base_uc + (j : Int), linspace uc_lo uc_hi n_rows j * 4, "undercut"⟩) ∧
    (∀ i : Nat, i < n_cols → 1 ≤ n_rows →
      (2 : Int) ≠ base_fc + (i : Int) →
      (∀ j : Nat, j < n_rows → base_uc + (j : Int) ≠ base_fc + (i : Int)) →
      (create_dose_test_grid junction_func width gap fc_lo fc_hi uc_lo uc_hi
          n_rows n_cols spacing start base_fc base_uc).table.find?
          (fun e => e.layer == base_fc + (i : Int)) =
        some ⟨base_fc + (i : Int), linspace fc_lo fc_hi n_cols i, "fullcut"⟩) ∧
    (create_dose_test_grid junction_func width gap fc_lo fc_hi uc_lo uc_hi
        n_rows n_cols spacing start base_fc base_uc).junctions =
      (create_dose_test_grid junction_func width gap fc_lo2 fc_hi2 uc_lo2 uc_hi2
        n_rows n_cols spacing start base_fc base_uc).junctions := by
  refine ⟨?_, ?_, rfl⟩
  · intro j hj hc h2 hfc
    have hcell : ((0 : Nat), j) ∈ doseTestCells n_cols n_rows :=
      mem_doseTestCells.mpr ⟨hc, hj⟩
    have hpres := uc_key_present base_fc base_uc
      (linspace fc_lo fc_hi n_cols) (linspace uc_lo uc_hi n_rows)
      (doseTestCells n_cols n_rows) [⟨2, 3000, "clearing"⟩] (0, j) hcell
    rcases hfind : (create_dose_test_grid junction_func width gap fc_lo fc_hi
        uc_lo uc_hi n_rows n_cols spacing start base_fc base_uc).table.find?
        (fun e => e.layer == base_uc + (j : Int)) with _ | y
    · exfalso
      rcases List.mem_map.mp hpres with ⟨y, hy, hylayer⟩
      have := List.find?_eq_none.mp hfind y hy
      simp only [beq_iff_eq] at this
      exact this hylayer
    · have hy_mem := List.mem_of_find?_eq_some hfind
      have hpy := List.find?_some hfind
      simp only [beq_iff_eq] at hpy
      rcases mem_doseTestFold base_fc base_uc
          (linspace fc_lo fc_hi n_cols) (linspace uc_lo uc_hi n_rows)
          (doseTestCells n_cols n_rows) [⟨2, 3000, "clearing"⟩] hy_mem with
        hcl | ⟨ij, hij, hy | hy⟩
      · have : y = ⟨2, 3000, "clearing"⟩ := by simpa using hcl
        subst this
        exact absurd hpy (by simpa using h2)
      · subst hy
        obtain ⟨i1, j1⟩ := ij
        rcases mem_doseTestCells.mp hij with ⟨hi1, _⟩
        exact absurd hpy (hfc i1 hi1)
      · subst hy
        obtain ⟨i1, j1⟩ := ij
        have hj1 : (j1 : Int) = (j : Int) := by
          have := hpy
          simp only at this
          omega
        have : j1 = j := by exact_mod_cast hj1
        subst this
        exact hfind
  · intro i hi hr h2 huc
    have hcell : (i, (0 : Nat)) ∈ doseTestCells n_cols n_rows :=
      mem_doseTestCells.mpr ⟨hi, hr⟩
    have hpres := fc_key_present base_fc base_uc
      (linspace fc_lo fc_hi n_cols) (linspace uc_lo uc_hi n_rows)
      (doseTestCells n_cols n_rows) [⟨2, 3000, "clearing"⟩] (i, 0) hcell
    rcases hfind : (create_dose_test_grid junction_func width gap fc_lo fc_hi
        uc_lo uc_hi n_rows n_cols spacing start base_fc base_uc).table.find?
        (fun e => e.layer == base_fc + (i : Int)) with _ | y
    · exfalso
      rcases List.mem_map.mp hpres with ⟨y, hy, hylayer⟩
      have := List.find?_eq_none.mp hfind y hy
      simp only [beq_iff_eq] at this
      exact this hylayer
    · have hy_mem := List.mem_of_find?_eq_some hfind
      have hpy := List.find?_some hfind
      simp only [beq_iff_eq] at hpy
      rcases mem_doseTestFold base_fc base_uc
          (linspace fc_lo fc_hi n_cols) (linspace uc_lo uc_hi n_rows)
          (doseTestCells n_cols n_rows) [⟨2, 3000, "clearing"⟩] hy_mem with
        hcl | ⟨ij, hij, hy | hy⟩
      · have : y = ⟨2, 3000, "clearing"⟩ := by simpa using hcl
        subst this
        exact absurd hpy (by simpa using h2)
      · subst hy
        obtain ⟨i1, j1⟩ := ij
        have hi1 : (i1 : Int) = (i : Int) := by
          have := hpy
          simp only at this
          omega
        have : i1 = i := by exact_mod_cast hi1
        subst this
        exact hfind
      · subst hy
        obtain ⟨i1, j1⟩ := ij
        rcases mem_doseTestCells.mp hij with ⟨_, hj1⟩
        exact absurd hpy (huc j1 hj1)

/-- Witness for C8 at a concrete input: a 2x2 dose-test grid with fullcut
range 400-800, undercut range 100-200, base layers 200/600; the recorded
entry for undercut layer 600 stores `4 * 100`, tagged undercut. -/
theorem dose_test_grid_undercut_scaling_witness :
    ((0 : Nat) < 2) ∧ ((1 : Nat) ≤ 2) ∧ ((2 : Int) ≠ 600 + ((0 : Nat) : Int)) ∧
    (create_dose_test_grid (fun _ _ _ _ => ()) 0.2 0.2 400 800 100 200
        2 2 50 ⟨0, 0⟩ 200 600).table.find?
        (fun e => e.layer == 600 + ((0 : Nat) : Int)) =
      some ⟨600 + ((0 : Nat) : Int), linspace 100 200 2 0 * 4, "undercut"⟩ :=
  ⟨by norm_num, by norm_num, by decide,
   (dose_test_grid_undercut_scaling (fun _ _ _ _ => ()) 0.2 0.2 400 800 100 200
      400 800 100 200 50 ⟨0, 0⟩ 2 2 200 600).1 0 (by norm_num) (by norm_num)
      (by decide) (by decide)⟩
